import Mathlib

set_option linter.unusedSectionVars false

/-!
Verification of the `loan_calc` amortization engine (finance-tools repository).

This file shallowly embeds the functions of `loan_calc.py` and proves
properties of the amortization schedule, the prepayment handling, the
scenario store and the rent-vs-own comparator.

Modelling conventions:
  * Calendar dates are represented by the day offset (a `Nat`) from the
    start date of the simulation; a concrete Gregorian calendar
    (`CalDate`, `addDays`, `isMonthEnd`) is used to reproduce the
    pandas `M` (month-end) and `SM` (15th and month-end) payment grids
    of `get_periods`.
  * Monetary amounts are elements of a `LinearOrderedField K`
    (instantiated at `ℚ` for concrete evaluations and at `ℝ` where the
    geometric rate conversion with real exponents is involved); the
    Python source computes with floats, for which the ordered field is
    the standard idealisation.
  * The per-day interest and appreciation rates `ir`, `app` are
    parameters of the engine, exactly as in the source where they are
    computed once (lines 131-132, `get_georeturn(rate, 'd')`) and then
    used throughout the loop.  `get_amortization_full` over `ℝ`
    performs that conversion itself, mirroring lines 130-136.
  * Fallible code is modelled with `Option`: looking up a prepayment
    date that matches no row raises an `IndexError` in the source
    (line 156, `.index.values.astype(int)[0]` on an empty selection),
    modelled by `none`.
  * The pandas dataframe of daily rows becomes a `List (Row K)`.  The
    `pay_period` column is initialised to `False` and never written by
    the source, so it is omitted.  The spurious extra row that
    `df.at[idx + 1, 'start']` creates when `idx` is the last label
    (dropped again by `df[~df.date.isnull()]`, line 230) is simply not
    created.
-/

/-- A Gregorian calendar date, used to reproduce the month-end grids of
`pandas.date_range` in `get_periods`. -/
structure CalDate where
  year : Nat
  month : Nat
  day : Nat
deriving DecidableEq, Repr

/-- Gregorian leap-year test. -/
def isLeap (y : Nat) : Bool :=
  (y % 4 = 0 && y % 100 ≠ 0) || y % 400 = 0

/-- Number of days of month `m` in year `y`. -/
def daysInMonth (y m : Nat) : Nat :=
  if m = 2 then (if isLeap y then 29 else 28)
  else if m = 4 ∨ m = 6 ∨ m = 9 ∨ m = 11 then 30
  else 31

/-- The calendar day after `d`. -/
def nextDay (d : CalDate) : CalDate :=
  if d.day < daysInMonth d.year d.month then ⟨d.year, d.month, d.day + 1⟩
  else if d.month < 12 then ⟨d.year, d.month + 1, 1⟩
  else ⟨d.year + 1, 1, 1⟩

/-- The calendar date `k` days after `d`. -/
def addDays (d : CalDate) : Nat → CalDate
  | 0 => d
  | k + 1 => nextDay (addDays d k)

/-- Whether `d` is the last day of its month (the anchor of the pandas
`M` frequency). -/
def isMonthEnd (d : CalDate) : Bool :=
  d.day = daysInMonth d.year d.month

/-- Model of `get_periods` (source lines 38-83): the payment / valuation dates,
as day offsets from `start_date`, from `start_date` to
`start_date + yrs*365 days` inclusive.
  * `'d'`: every calendar day;
  * `'m'`: pandas `M`, calendar month-ends in the range;
  * `'b'`: pandas `SM`, the 15th and the month-end;
  * `'a'`: exact 14-day steps (`while dt + 14 <= end`), so offsets
    `14, 28, ...` up to `yrs*365`;
  * any other frequency: the source prints `unknown frequency` and
    returns the empty list. -/
def get_periods (start_date : CalDate) (yrs : Nat) (frequency : Char) : List Nat :=
  let n := 365 * yrs
  if frequency = 'd' then
    List.range (n + 1)
  else if frequency = 'm' then
    (List.range (n + 1)).filter (fun k => isMonthEnd (addDays start_date k))
  else if frequency = 'b' then
    (List.range (n + 1)).filter (fun k =>
      isMonthEnd (addDays start_date k) || (addDays start_date k).day = 15)
  else if frequency = 'a' then
    (List.range (n / 14)).map (fun i => 14 * (i + 1))
  else
    []

/-- One row of the amortization schedule (the columns of the dataframe
initialised at source lines 139-149 that the engine writes). -/
structure Row (K : Type) where
  date : Nat
  start : K
  payment : K
  prepayment : K
  interest : K
  endBal : K
  value : K
  equity : K
deriving DecidableEq, Repr

variable {K : Type} [LinearOrderedField K]

/-- A row never reached by the simulation loop: every monetary column
keeps its initialisation `0.0` except the `prepayment` column, which
was filled by the prepayment pre-pass (source lines 152-159) before the
loop ran. -/
def zeroRow (d : Nat) (prep : K) : Row K :=
  ⟨d, 0, 0, prep, 0, 0, 0, 0⟩

/-- The simulation loop of `get_amortization` (source lines 162-214).
`idx` is the current day offset, `fuel` the number of rows still to
visit, `s` the running start balance (`df.at[idx, 'start']`) and `v`
the running property value.  Returns the rows from `idx` on together
with `end_date` (as a day offset; the convention `idx - 1` in the base
case makes it the date of the last visited row).

On each row: the payment applies when the date is in `pay_rng`
(line 171), interest is `(start - pay - prepayment) * ir` (line 177),
the end balance is `start + interest - pay - prepayment` (line 180) and
the property value compounds by `1 + app` (line 183).  While
`end > 0` the row is written and the balance carried to the next row
(lines 186-199); otherwise the terminal row clamps `payment` to the
start balance, zeroes `interest` and `end`, keeps the equity computed
from the unclamped `end` (line 207 uses the local variable `end`, not
the stored `0`), records the date and stops (lines 201-214), leaving
all later rows unwritten. -/
def amortAux (ir app fees payment : K) (payRng : List Nat) (prepay : Nat → K) :
    Nat → Nat → K → K → List (Row K) × Nat
  | idx, 0, _, _ => ([], idx - 1)
  | idx, fuel + 1, s, v =>
    let pay := if payRng.contains idx then payment else 0
    let prep := prepay idx
    let intPay := (s - pay - prep) * ir
    let endB := s + intPay - pay - prep
    let v2 := v * (1 + app)
    if 0 < endB then
      let rest := amortAux ir app fees payment payRng prepay (idx + 1) fuel endB v2
      (⟨idx, s, pay, prep, intPay, endB, v2, (v2 - endB) - v2 * fees⟩ :: rest.1, rest.2)
    else
      (⟨idx, s, s, prep, 0, 0, v2, (v2 - endB) - v2 * fees⟩ ::
        (List.range' (idx + 1) fuel).map (fun j => zeroRow j (prepay j)), idx)

/-- Overwrite the prepayment column at date `d` with `v`
(`df.at[idx, 'prepayment'] = prepayment['value']`, source line 159). -/
def setPrepay (f : Nat → K) (d : Nat) (v : K) : Nat → K :=
  fun k => if k = d then v else f k

/-- The prepayment pre-pass (source lines 152-159): each prepayment is
looked up by exact date among the generated rows (days `0..n`); a date
with no matching row makes `.index.values.astype(int)[0]` raise an
`IndexError`, modelled by `none`.  A later prepayment on the same date
overwrites an earlier one. -/
def resolvePrepayAux (n : Nat) (f : Nat → K) : List (Nat × K) → Option (Nat → K)
  | [] => some f
  | p :: ps =>
    if p.1 ≤ n then resolvePrepayAux n (setPrepay f p.1 p.2) ps
    else none

/-- Model of `get_amortization` (source lines 88-231) without the scenario join:
computes the mortgage `price - deposit`, the daily date range, the
payment grid for `frequency`, applies the prepayment pre-pass and runs
the simulation loop.  `ir` and `app` are the per-day rates (the source
computes them at lines 131-132 as `get_georeturn(rate, 'd')`; the
`ℝ`-level wrapper `get_amortization_full` performs that conversion).
Returns the schedule and `end_date` or `none` when a prepayment date
matches no row. -/
def get_amortization (start_date : CalDate) (price deposit payment : K) (yrs : Nat)
    (ir app : K) (frequency : Char) (re_fees : K)
    (prepayments : Option (List (Nat × K))) : Option (List (Row K) × Nat) :=
  let fees := re_fees / 100
  let mortgage := price - deposit
  let n := 365 * yrs
  let payRng := get_periods start_date yrs frequency
  let pf : Option (Nat → K) :=
    match prepayments with
    | none => some (fun _ => 0)
    | some ps => resolvePrepayAux n (fun _ => 0) ps
  pf.map (fun prepay => amortAux ir app fees payment payRng prepay 0 (n + 1) mortgage price)

/-- Model of `save_scenario` (source lines 551-594) with a fresh store
(`scenarios=None` branch): extract the `(date, end)` pairs of the
schedule as the saved series (the column rename to
`scenario-<name>` does not change the values). -/
def save_scenario (rows : List (Row K)) : List (Nat × K) :=
  rows.map (fun r => (r.date, r.endBal))

/-- Look up the saved value at date `d` in a scenario series (the inner
join of source line 224 matches rows by date). -/
def lookupDate (scen : List (Nat × K)) (d : Nat) : Option K :=
  (scen.find? (fun p => p.1 = d)).map (fun p => p.2)

/-- The scenario inner join (source lines 217-226): keep exactly the
schedule rows whose date occurs in the scenario series, paired with the
saved value at that date. -/
def joinScenario (rows : List (Row K)) (scen : List (Nat × K)) : List (Row K × K) :=
  rows.filterMap (fun r => (lookupDate scen r.date).map (fun v => (r, v)))

/-- Model of `get_amortization` with the `scenarios is not None` branch (source
lines 216-226): run the engine, then inner-join the schedule with the
scenario series by date. -/
def get_amortization_with_scenarios (start_date : CalDate)
    (price deposit payment : K) (yrs : Nat) (ir app : K) (frequency : Char)
    (re_fees : K) (prepayments : Option (List (Nat × K)))
    (scenarios : List (Nat × K)) : Option (List (Row K × K) × Nat) :=
  (get_amortization start_date price deposit payment yrs ir app frequency re_fees
    prepayments).map (fun pr => (joinScenario pr.1 scenarios, pr.2))

/-- Model of `get_georeturn` (source lines 234-257): converts an annual rate of
return (in percent) to a per-period geometric rate.  Only `'m'`
(periods per year 12) and `'d'` (365) are recognised; any other
frequency prints `frequency not recongized` and returns `None`,
modelled by `none`. -/
noncomputable def get_georeturn (rate : ℝ) (frequency : Char) : Option ℝ :=
  let r := rate / 100
  if frequency = 'm' then some ((1 + r) ^ ((1 : ℝ) / 12) - 1)
  else if frequency = 'd' then some ((1 + r) ^ ((1 : ℝ) / 365) - 1)
  else none

/-- Model of `get_amortization` including the rate conversion of source lines
131-132: both the interest rate and the appreciation rate are converted
with `get_georeturn(rate, 'd')`, whatever payment `frequency` was
requested. -/
noncomputable def get_amortization_full (start_date : CalDate)
    (price deposit payment : ℝ) (yrs : Nat) (int_rate app_rate : ℝ)
    (frequency : Char) (re_fees : ℝ)
    (prepayments : Option (List (Nat × ℝ))) : Option (List (Row ℝ) × Nat) :=
  match get_georeturn int_rate 'd', get_georeturn app_rate 'd' with
  | some ir, some app =>
    get_amortization start_date price deposit payment yrs ir app frequency re_fees
      prepayments
  | _, _ => none

/-- The per-period tax / maintenance / rent used by `get_rent_vs_own`
(source lines 393-407): monthly figures pass through for `'m'`, are
halved for `'b'`, and every other frequency falls into the
accelerated bi-weekly `else` branch (tax over 26 periods, monthly
figures scaled by `12/26`). -/
def rentScaling (frequency : Char) (annual_tax monthly_main monthly_rent : K) :
    K × K × K :=
  if frequency = 'm' then (annual_tax / 12, monthly_main, monthly_rent)
  else if frequency = 'b' then (annual_tax / 24, monthly_main / 2, monthly_rent / 2)
  else (annual_tax / 26, monthly_main * 12 / 26, monthly_rent * 12 / 26)

/-- A row of the rent-vs-own comparison: the amortization row plus the
parallel investment account columns and the cross-over marker (the
source stores `0`/`1` in the `cross_over` column; it is modelled as a
`Bool`). -/
structure RvoRow (K : Type) where
  row : Row K
  invest_start : K
  invest_end : K
  cross_over : Bool
deriving DecidableEq, Repr

/-- The investment loop of `get_rent_vs_own` (source lines 410-444).
`idx` is the positional index, `prevR` the previous row's
`cross_over_tmp` (`true` for `'r'`, i.e. investment above equity) and
`carry` the `invest_start` written for this row by the previous
iteration.  Row 0 invests the deposit (ignoring any payment); a row
with positive stored payment invests
`invest_start + tax + main + (payment - rent)` (the configured
`payment` argument, line 426); a row with zero payment compounds the
balance; a row with negative payment matches no branch, so its
`invest_end` and the next `invest_start` keep their initialisation `0`.
The comparison `invest_end > equity` sets `cross_over_tmp` and
`cross_over` is set whenever `idx > 0` and the side differs from the
previous row's (lines 436-444). -/
def rvoAux (inv tax main rent payment deposit : K) :
    Nat → Bool → K → List (Row K) → List (RvoRow K)
  | _, _, _, [] => []
  | idx, prevR, carry, r :: rest =>
    let t : K × K × K :=
      if idx = 0 then
        (deposit, deposit * (1 + inv), deposit * (1 + inv))
      else if 0 < r.payment then
        let invest := carry + tax + main + (payment - rent)
        (carry, invest * (1 + inv), invest * (1 + inv))
      else if r.payment = 0 then
        (carry, carry * (1 + inv), carry * (1 + inv))
      else
        (carry, 0, 0)
    let side := decide (r.equity < t.2.1)
    let cross := idx ≠ 0 && (prevR != side)
    ⟨r, t.1, t.2.1, cross⟩ :: rvoAux inv tax main rent payment deposit (idx + 1) side t.2.2 rest

/-- Model of `get_rent_vs_own` (source lines 373-452): run the amortization
engine (no prepayments, no scenarios), truncate the schedule to the
rows up to and including `end_date` (line 382), scale the cash flows
per `rentScaling`, and run the investment loop.  `inv` is the per-day
investment rate (source line 391 computes it as
`get_georeturn(inv_rate, 'd')`). -/
def get_rent_vs_own (start_date : CalDate) (price deposit payment : K) (yrs : Nat)
    (ir app : K) (frequency : Char) (re_fees monthly_rent inv monthly_main
    annual_tax : K) : Option (List (RvoRow K)) :=
  (get_amortization start_date price deposit payment yrs ir app frequency re_fees
    none).map (fun pr =>
      let rows := pr.1.filter (fun r => decide (r.date ≤ pr.2))
      let sc := rentScaling frequency annual_tax monthly_main monthly_rent
      rvoAux inv sc.1 sc.2.1 sc.2.2 payment deposit 0 true 0 rows)

/-- A fixed start date for concrete runs. -/
def cal0 : CalDate := ⟨2024, 1, 1⟩

/-! ### Basic simulation-loop lemmas -/

section AuxLemmas

variable (ir app fees payment : K) (payRng : List Nat) (prepay : Nat → K)

/-- The loop visits exactly `fuel` rows: one per remaining day. -/
theorem amortAux_length (fuel : Nat) : ∀ (idx : Nat) (s v : K),
    (amortAux ir app fees payment payRng prepay idx fuel s v).1.length = fuel := by
  induction fuel with
  | zero => intro idx s v; rfl
  | succ fuel ih =>
    intro idx s v
    simp only [amortAux]
    split <;> split <;> simp [ih]

/-- The dates of the produced rows are exactly the day offsets
`idx, idx+1, ..., idx+fuel-1`, whether or not the mortgage pays off. -/
theorem amortAux_dates (fuel : Nat) : ∀ (idx : Nat) (s v : K),
    (amortAux ir app fees payment payRng prepay idx fuel s v).1.map Row.date
      = List.range' idx fuel := by
  induction fuel with
  | zero => intro idx s v; rfl
  | succ fuel ih =>
    intro idx s v
    simp only [amortAux]
    split <;> split <;>
      simp only [List.map_cons, ih, List.range'_succ, List.map_map, List.cons.injEq,
        true_and] <;>
      exact (List.map_congr_left fun j _ => rfl).trans (List.map_id _)

/-- The recorded `end_date` is at least `idx - 1` (it is the date of
the last visited row, or `idx - 1` when no row remains). -/
theorem amortAux_endDate_ge (fuel : Nat) : ∀ (idx : Nat) (s v : K),
    idx - 1 ≤ (amortAux ir app fees payment payRng prepay idx fuel s v).2 := by
  induction fuel with
  | zero => intro idx s v; exact Nat.le_refl _
  | succ fuel ih =>
    intro idx s v
    simp only [amortAux]
    split <;> split <;>
      first
      | exact Nat.le_trans (by omega) (ih (idx + 1) _ _)
      | omega

/-- No row of the schedule ever carries a negative end balance. -/
theorem amortAux_endBal_nonneg (fuel : Nat) : ∀ (idx : Nat) (s v : K),
    ∀ r ∈ (amortAux ir app fees payment payRng prepay idx fuel s v).1,
      0 ≤ r.endBal := by
  induction fuel with
  | zero => intro idx s v r hr; simp [amortAux] at hr
  | succ fuel ih =>
    intro idx s v r hr
    simp only [amortAux] at hr
    split at hr <;> split at hr <;>
      rcases List.mem_cons.1 hr with h | h <;>
      first
      | (subst h; dsimp only; first | exact le_of_lt (by assumption) | exact le_refl 0)
      | exact ih _ _ _ r h
      | (rcases List.mem_map.1 h with ⟨j, _, rfl⟩; exact le_refl 0)

/-- The first of `fuel + 1` visited rows has start balance `s`. -/
theorem amortAux_head_start (fuel idx : Nat) (s v : K) :
    ((amortAux ir app fees payment payRng prepay idx (fuel + 1) s v).1.head?).map Row.start
      = some s := by
  simp only [amortAux]
  split <;> split <;> rfl

/-- The first of `fuel + 1` visited rows has property value
`v * (1 + app)`: the value compounds on every calendar-day row. -/
theorem amortAux_head_value (fuel idx : Nat) (s v : K) :
    ((amortAux ir app fees payment payRng prepay idx (fuel + 1) s v).1.head?).map Row.value
      = some (v * (1 + app)) := by
  simp only [amortAux]
  split <;> split <;> rfl

end AuxLemmas

/-! ### Structure of a schedule: positive prefix, terminal row, zero tail -/

section Decomp

variable (ir app fees payment : K) (payRng : List Nat) (prepay : Nat → K)

/-- Every row of `fuel` visited rows that is first in the output has
start balance `s`, stated through `Option` membership. -/
theorem amortAux_head_start_mem (fuel idx : Nat) (s v : K) :
    ∀ y ∈ (amortAux ir app fees payment payRng prepay idx fuel s v).1.head?,
      y.start = s := by
  cases fuel with
  | zero => intro y hy; simp [amortAux] at hy
  | succ fuel =>
    intro y hy
    have h := amortAux_head_start ir app fees payment payRng prepay fuel idx s v
    rw [Option.mem_def] at hy
    rw [hy] at h
    simpa using h

/-- Master decomposition of a simulation run.  The rows split into a
prefix of rows with strictly positive end balance (each satisfying the
stored-balance equity formula) followed, if the mortgage pays off
within the horizon, by the terminal row (clamped `payment = start`,
`interest = 0`, `endBal = 0`, equity computed from the unclamped
balance `e ≤ 0`, date recorded as `end_date`) and the untouched zero
rows.  If no payoff occurs, the `end_date` is the last simulated day. -/
theorem amortAux_decomp (fuel : Nat) : ∀ (idx : Nat) (s v : K) (rows : List (Row K)) (ed : Nat),
    amortAux ir app fees payment payRng prepay idx fuel s v = (rows, ed) →
    ∃ pre post, rows = pre ++ post ∧
      (∀ r ∈ pre, 0 < r.endBal ∧ r.equity = (r.value - r.endBal) - r.value * fees) ∧
      (post = [] → ed = idx + fuel - 1) ∧
      (∀ t ∈ post.head?, t.payment = t.start ∧ t.interest = 0 ∧ t.endBal = 0 ∧
        ed = t.date ∧ ∃ e, e ≤ 0 ∧ t.equity = (t.value - e) - t.value * fees) ∧
      (∀ r ∈ post.tail, r.start = 0 ∧ r.payment = 0 ∧ r.interest = 0 ∧ r.endBal = 0 ∧
        r.value = 0 ∧ r.equity = 0) := by
  induction fuel with
  | zero =>
    intro idx s v rows ed h
    obtain ⟨rfl, rfl⟩ : rows = [] ∧ ed = idx - 1 := by
      simpa [amortAux, Prod.ext_iff, eq_comm] using h
    exact ⟨[], [], by simp, by simp, fun _ => by omega, by simp, by simp⟩
  | succ fuel ih =>
    intro idx s v rows ed h
    simp only [amortAux] at h
    split at h <;> split at h <;>
      [skip; skip; skip; skip] <;>
      injection h with h1 h2
    case isTrue.isTrue hc hpos =>
      subst h1; subst h2
      obtain ⟨pre, post, hsplit, hpre, hemp, hhead, htail⟩ := ih (idx + 1) _ _ _ _ rfl
      refine ⟨_ :: pre, post, by rw [List.cons_append, hsplit], ?_, ?_, hhead, htail⟩
      · intro r hr
        rcases List.mem_cons.1 hr with h' | h'
        · subst h'; exact ⟨hpos, rfl⟩
        · exact hpre r h'
      · intro hp; have := hemp hp; omega
    case isTrue.isFalse hc hneg =>
      subst h1; subst h2
      refine ⟨[], _, (List.nil_append _).symm, by simp, by simp, ?_, ?_⟩
      · intro t ht
        simp only [List.head?_cons, Option.mem_def, Option.some.injEq] at ht
        subst ht
        exact ⟨rfl, rfl, rfl, rfl, _, not_lt.1 hneg, rfl⟩
      · intro r hr
        simp only [List.tail_cons] at hr
        rcases List.mem_map.1 hr with ⟨j, _, rfl⟩
        exact ⟨rfl, rfl, rfl, rfl, rfl, rfl⟩
    case isFalse.isTrue hc hpos =>
      subst h1; subst h2
      obtain ⟨pre, post, hsplit, hpre, hemp, hhead, htail⟩ := ih (idx + 1) _ _ _ _ rfl
      refine ⟨_ :: pre, post, by rw [List.cons_append, hsplit], ?_, ?_, hhead, htail⟩
      · intro r hr
        rcases List.mem_cons.1 hr with h' | h'
        · subst h'; exact ⟨hpos, rfl⟩
        · exact hpre r h'
      · intro hp; have := hemp hp; omega
    case isFalse.isFalse hc hneg =>
      subst h1; subst h2
      refine ⟨[], _, (List.nil_append _).symm, by simp, by simp, ?_, ?_⟩
      · intro t ht
        simp only [List.head?_cons, Option.mem_def, Option.some.injEq] at ht
        subst ht
        exact ⟨rfl, rfl, rfl, rfl, _, not_lt.1 hneg, rfl⟩
      · intro r hr
        simp only [List.tail_cons] at hr
        rcases List.mem_map.1 hr with ⟨j, _, rfl⟩
        exact ⟨rfl, rfl, rfl, rfl, rfl, rfl⟩

/-- Untouched zero rows chain trivially: every start and end balance
is `0`. -/
theorem chain_zeroRow (l : List Nat) :
    List.Chain' (fun a b => b.start = a.endBal)
      (l.map fun j => (zeroRow j (prepay j) : Row K)) := by
  induction l with
  | nil => simp
  | cons a l ih =>
    cases l with
    | nil => simp
    | cons b t => exact List.chain'_cons.2 ⟨rfl, ih⟩

/-- Consecutive rows chain: each row's start balance is the previous
row's end balance, across the payoff row and the zero tail alike. -/
theorem amortAux_chain (fuel : Nat) : ∀ (idx : Nat) (s v : K),
    List.Chain' (fun a b => b.start = a.endBal)
      (amortAux ir app fees payment payRng prepay idx fuel s v).1 := by
  induction fuel with
  | zero => intro idx s v; simp [amortAux]
  | succ fuel ih =>
    intro idx s v
    simp only [amortAux]
    split <;> split
    case isTrue.isTrue hpos =>
      refine List.chain'_cons'.2 ⟨?_, ih (idx + 1) _ _⟩
      intro y hy
      exact amortAux_head_start_mem ir app fees payment payRng prepay fuel (idx + 1) _ _ y hy
    case isTrue.isFalse hneg =>
      refine List.chain'_cons'.2 ⟨?_, chain_zeroRow prepay _⟩
      intro y hy
      cases fuel with
      | zero => simp at hy
      | succ fuel =>
        simp only [List.range'_succ, List.map_cons, List.head?_cons, Option.mem_def,
          Option.some.injEq] at hy
        subst hy; rfl
    case isFalse.isTrue hpos =>
      refine List.chain'_cons'.2 ⟨?_, ih (idx + 1) _ _⟩
      intro y hy
      exact amortAux_head_start_mem ir app fees payment payRng prepay fuel (idx + 1) _ _ y hy
    case isFalse.isFalse hneg =>
      refine List.chain'_cons'.2 ⟨?_, chain_zeroRow prepay _⟩
      intro y hy
      cases fuel with
      | zero => simp at hy
      | succ fuel =>
        simp only [List.range'_succ, List.map_cons, List.head?_cons, Option.mem_def,
          Option.some.injEq] at hy
        subst hy; rfl

end Decomp

/-! ### Extensionality, accrual basis, and prepayment resolution -/

section ExtAccrual

variable (ir app fees payment : K)

/-- The simulation depends on the payment grid and the prepayment
column only through their values at the visited dates: two runs whose
grids agree (as membership tests) and whose prepayment columns agree on
the visited range produce identical output. -/
theorem amortAux_ext (payRng payRng' : List Nat) (prepay prepay' : Nat → K)
    (fuel : Nat) : ∀ (idx : Nat) (s v : K),
    (∀ k, idx ≤ k → payRng.contains k = payRng'.contains k ∧ prepay k = prepay' k) →
    amortAux ir app fees payment payRng prepay idx fuel s v
      = amortAux ir app fees payment payRng' prepay' idx fuel s v := by
  induction fuel with
  | zero => intro idx s v _; rfl
  | succ fuel ih =>
    intro idx s v hag
    obtain ⟨hc, hp⟩ := hag idx (Nat.le_refl idx)
    simp only [amortAux, hc, hp]
    have hz : ∀ j ∈ List.range' (idx + 1) fuel,
        (zeroRow j (prepay j) : Row K) = zeroRow j (prepay' j) := by
      intro j hj
      have h1 : idx + 1 ≤ j := (List.mem_range'_1.1 hj).1
      rw [(hag j (by omega)).2]
    split <;> split
    case isTrue.isTrue => rw [ih (idx + 1) _ _ (fun k hk => hag k (by omega))]
    case isTrue.isFalse => rw [List.map_congr_left hz]
    case isFalse.isTrue => rw [ih (idx + 1) _ _ (fun k hk => hag k (by omega))]
    case isFalse.isFalse => rw [List.map_congr_left hz]

/-- In every row still carrying a positive balance the stored interest
is exactly `(start - payment - prepayment) * ir`: the accrual basis is
the single per-day rate `ir`, independent of anything else. -/
theorem amortAux_interest (payRng : List Nat) (prepay : Nat → K) (fuel : Nat) :
    ∀ (idx : Nat) (s v : K),
    ∀ r ∈ (amortAux ir app fees payment payRng prepay idx fuel s v).1,
      0 < r.endBal → r.interest = (r.start - r.payment - r.prepayment) * ir := by
  induction fuel with
  | zero => intro idx s v r hr; simp [amortAux] at hr
  | succ fuel ih =>
    intro idx s v r hr
    simp only [amortAux] at hr
    split at hr <;> split at hr <;>
      rcases List.mem_cons.1 hr with h | h <;>
      first
      | (subst h; intro _; rfl)
      | (subst h; intro hlt; exact absurd hlt (lt_irrefl 0))
      | exact ih _ _ _ r h
      | (rcases List.mem_map.1 h with ⟨j, _, rfl⟩; intro hlt; exact absurd hlt (lt_irrefl 0))

/-- A head row of the loop output, if any, has property value
`v * (1 + app)`. -/
theorem amortAux_head_value_mem (payRng : List Nat) (prepay : Nat → K) (fuel idx : Nat)
    (s v : K) :
    ∀ y ∈ (amortAux ir app fees payment payRng prepay idx fuel s v).1.head?,
      y.value = v * (1 + app) := by
  cases fuel with
  | zero => intro y hy; simp [amortAux] at hy
  | succ fuel =>
    intro y hy
    have h := amortAux_head_value ir app fees payment payRng prepay fuel idx s v
    rw [Option.mem_def] at hy
    rw [hy] at h
    simpa using h

/-- Untouched zero rows also satisfy the (vacuous) value-compounding
relation, since their end balance is `0`. -/
theorem chain_zeroRow_value (prepay : Nat → K) (l : List Nat) :
    List.Chain' (fun a b => 0 < b.endBal → b.value = a.value * (1 + app))
      (l.map fun j => (zeroRow j (prepay j) : Row K)) := by
  induction l with
  | nil => simp
  | cons a l ih =>
    cases l with
    | nil => simp
    | cons b t => exact List.chain'_cons.2 ⟨fun hlt => absurd hlt (lt_irrefl 0), ih⟩

/-- Property-value compounding: along consecutive rows, as long as the
balance is still positive, the value multiplies by `1 + app` on every
calendar-day row. -/
theorem amortAux_value_chain (payRng : List Nat) (prepay : Nat → K) (fuel : Nat) :
    ∀ (idx : Nat) (s v : K),
    List.Chain' (fun a b => 0 < b.endBal → b.value = a.value * (1 + app))
      (amortAux ir app fees payment payRng prepay idx fuel s v).1 := by
  induction fuel with
  | zero => intro idx s v; simp [amortAux]
  | succ fuel ih =>
    intro idx s v
    simp only [amortAux]
    split <;> split
    case isTrue.isTrue hpos =>
      refine List.chain'_cons'.2 ⟨?_, ih (idx + 1) _ _⟩
      intro y hy _
      exact amortAux_head_value_mem ir app fees payment payRng prepay fuel (idx + 1) _ _ y hy
    case isTrue.isFalse hneg =>
      refine List.chain'_cons'.2 ⟨?_, chain_zeroRow_value app prepay _⟩
      intro y hy hlt
      cases fuel with
      | zero => simp at hy
      | succ fuel =>
        simp only [List.range'_succ, List.map_cons, List.head?_cons, Option.mem_def,
          Option.some.injEq] at hy
        subst hy
        exact absurd hlt (lt_irrefl 0)
    case isFalse.isTrue hpos =>
      refine List.chain'_cons'.2 ⟨?_, ih (idx + 1) _ _⟩
      intro y hy _
      exact amortAux_head_value_mem ir app fees payment payRng prepay fuel (idx + 1) _ _ y hy
    case isFalse.isFalse hneg =>
      refine List.chain'_cons'.2 ⟨?_, chain_zeroRow_value app prepay _⟩
      intro y hy hlt
      cases fuel with
      | zero => simp at hy
      | succ fuel =>
        simp only [List.range'_succ, List.map_cons, List.head?_cons, Option.mem_def,
          Option.some.injEq] at hy
        subst hy
        exact absurd hlt (lt_irrefl 0)

/-- An out-of-range prepayment date (no generated row matches it) makes
the pre-pass fail, wherever it sits in the list. -/
theorem resolvePrepayAux_none (n : Nat) : ∀ (ps : List (Nat × K)) (f : Nat → K),
    (∃ q ∈ ps, n < q.1) → resolvePrepayAux n f ps = none := by
  intro ps
  induction ps with
  | nil => intro f h; simp at h
  | cons q qs ih =>
    intro f h
    rcases h with ⟨q', hq', hlt⟩
    rcases List.mem_cons.1 hq' with rfl | hmem
    · simp [resolvePrepayAux, Nat.not_le.2 hlt]
    · simp only [resolvePrepayAux]
      split
      · exact ih _ ⟨q', hmem, hlt⟩
      · rfl

/-- If every prepayment date matches a generated row the pre-pass
succeeds. -/
theorem resolvePrepayAux_some (n : Nat) : ∀ (ps : List (Nat × K)) (f : Nat → K),
    (∀ q ∈ ps, q.1 ≤ n) → (resolvePrepayAux n f ps).isSome = true := by
  intro ps
  induction ps with
  | nil => intro f _; rfl
  | cons q qs ih =>
    intro f h
    simp only [resolvePrepayAux, h q (List.mem_cons_self q qs), if_true]
    exact ih _ fun q' hq' => h q' (List.mem_cons_of_mem q hq')

end ExtAccrual

/-! ### Monotonicity of the balance in the starting principal -/

section Mono

/-- Two runs identical except for a strictly smaller start balance.
The smaller run's end balances stay no larger row by row — strictly
smaller wherever the larger run's balance is still positive — and its
`end_date` comes no later. -/
theorem amortAux_mono (ir app fees payment : K) (payRng : List Nat) (prepay : Nat → K)
    (hir : 0 < 1 + ir) (fuel : Nat) : ∀ (idx : Nat) (s0 s1 v : K), s1 < s0 →
    (∀ j a b, (amortAux ir app fees payment payRng prepay idx fuel s0 v).1.get? j = some a →
        (amortAux ir app fees payment payRng prepay idx fuel s1 v).1.get? j = some b →
        b.endBal ≤ a.endBal ∧ (0 < a.endBal → b.endBal < a.endBal)) ∧
    (amortAux ir app fees payment payRng prepay idx fuel s1 v).2
      ≤ (amortAux ir app fees payment payRng prepay idx fuel s0 v).2 := by
  induction fuel with
  | zero =>
    intro idx s0 s1 v hs
    exact ⟨fun j a b ha _ => by simp [amortAux] at ha, le_refl _⟩
  | succ fuel ih =>
    intro idx s0 s1 v hs
    simp only [amortAux]
    set pay := (if payRng.contains idx = true then payment else 0 : K) with hpay
    set prep := prepay idx with hprep
    have hlt : s1 + (s1 - pay - prep) * ir - pay - prep
        < s0 + (s0 - pay - prep) * ir - pay - prep := by
      nlinarith [mul_pos (sub_pos.2 hs) hir]
    by_cases h0 : 0 < s0 + (s0 - pay - prep) * ir - pay - prep
    · by_cases h1 : 0 < s1 + (s1 - pay - prep) * ir - pay - prep
      · simp only [if_pos h0, if_pos h1]
        obtain ⟨ihj, ihed⟩ := ih (idx + 1) _ _ (v * (1 + app)) hlt
        refine ⟨?_, ihed⟩
        intro j a b ha hb
        cases j with
        | zero =>
          rw [List.get?_cons_zero, Option.some.injEq] at ha hb
          subst ha; subst hb
          exact ⟨le_of_lt hlt, fun _ => hlt⟩
        | succ j =>
          rw [List.get?_cons_succ] at ha hb
          exact ihj j a b ha hb
      · simp only [if_pos h0, if_neg h1]
        refine ⟨?_, ?_⟩
        · intro j a b ha hb
          cases j with
          | zero =>
            rw [List.get?_cons_zero, Option.some.injEq] at ha hb
            subst ha; subst hb
            exact ⟨le_of_lt h0, fun _ => h0⟩
          | succ j =>
            rw [List.get?_cons_succ] at ha hb
            have hmem : a ∈ (amortAux ir app fees payment payRng prepay (idx + 1) fuel
                (s0 + (s0 - pay - prep) * ir - pay - prep) (v * (1 + app))).1 :=
              List.get?_mem ha
            have ha0 := amortAux_endBal_nonneg ir app fees payment payRng prepay fuel
              (idx + 1) _ _ a hmem
            rw [List.get?_map] at hb
            rcases Option.map_eq_some'.1 hb with ⟨jj, hjj, rfl⟩
            exact ⟨ha0, fun hpos => hpos⟩
        · exact Nat.le_trans (by omega)
            (amortAux_endDate_ge ir app fees payment payRng prepay fuel (idx + 1) _ _)
    · have h1 : ¬ 0 < s1 + (s1 - pay - prep) * ir - pay - prep :=
        fun h => h0 (lt_trans h hlt)
      simp only [if_neg h0, if_neg h1]
      refine ⟨?_, le_refl _⟩
      intro j a b ha hb
      cases j with
      | zero =>
        rw [List.get?_cons_zero, Option.some.injEq] at ha hb
        subst ha; subst hb
        exact ⟨le_refl 0, fun hpos => absurd hpos (lt_irrefl 0)⟩
      | succ j =>
        rw [List.get?_cons_succ, List.get?_map] at ha hb
        rcases Option.map_eq_some'.1 ha with ⟨ja, hja, rfl⟩
        rcases Option.map_eq_some'.1 hb with ⟨jb, hjb, rfl⟩
        exact ⟨le_refl 0, fun hpos => absurd hpos (lt_irrefl 0)⟩

end Mono

/-! ### Effect of a single prepayment -/

section PrepayEffect

/-- Comparison of a run without prepayments against the same run with a
single prepayment of `amt > 0` on day `p`.  While the no-prepayment run
is still positive at row `p`, the prepayment run's balances are no
larger from row `p` on — strictly smaller wherever the base balance is
positive — and its `end_date` comes no later. -/
theorem amortAux_prepay_lt (ir app fees payment : K) (payRng : List Nat)
    (p : Nat) (amt : K) (hamt : 0 < amt) (hir : 0 < 1 + ir) (fuel : Nat) :
    ∀ (idx : Nat) (s v : K), idx ≤ p →
    (∀ a, (amortAux ir app fees payment payRng (fun _ => 0) idx fuel s v).1.get? (p - idx)
        = some a → 0 < a.endBal) →
    (∀ j a b, p - idx ≤ j →
        (amortAux ir app fees payment payRng (fun _ => 0) idx fuel s v).1.get? j = some a →
        (amortAux ir app fees payment payRng (setPrepay (fun _ => 0) p amt)
          idx fuel s v).1.get? j = some b →
        b.endBal ≤ a.endBal ∧ (0 < a.endBal → b.endBal < a.endBal)) ∧
    (amortAux ir app fees payment payRng (setPrepay (fun _ => 0) p amt) idx fuel s v).2
      ≤ (amortAux ir app fees payment payRng (fun _ => 0) idx fuel s v).2 := by
  induction fuel with
  | zero =>
    intro idx s v _ _
    exact ⟨fun j a b _ ha _ => by simp [amortAux] at ha, le_refl _⟩
  | succ fuel ih =>
    intro idx s v hip hstill
    rcases Nat.lt_or_ge idx p with hlt_ip | hge
    -- before the prepayment row: both runs evolve identically
    · have hne : idx ≠ p := Nat.ne_of_lt hlt_ip
      simp only [amortAux, setPrepay, if_neg hne] at hstill ⊢
      set pay := (if payRng.contains idx = true then payment else 0 : K) with hpay
      by_cases h0 : 0 < s + (s - pay - 0) * ir - pay - 0
      · simp only [if_pos h0] at hstill ⊢
        have hpi : p - idx = (p - (idx + 1)) + 1 := by omega
        have hstill' : ∀ a,
            (amortAux ir app fees payment payRng (fun _ => 0) (idx + 1) fuel
              (s + (s - pay - 0) * ir - pay - 0) (v * (1 + app))).1.get? (p - (idx + 1))
              = some a → 0 < a.endBal := by
          intro a ha
          exact hstill a (by rw [hpi, List.get?_cons_succ]; exact ha)
        obtain ⟨ihj, ihed⟩ := ih (idx + 1) _ _ (by omega) hstill'
        refine ⟨?_, ihed⟩
        intro j a b hj ha hb
        cases j with
        | zero => omega
        | succ j =>
          rw [List.get?_cons_succ] at ha hb
          exact ihj j a b (by omega) ha hb
      · simp only [if_neg h0]
        refine ⟨?_, le_refl _⟩
        intro j a b hj ha hb
        cases j with
        | zero => omega
        | succ j =>
          rw [List.get?_cons_succ, List.get?_map] at ha hb
          rcases Option.map_eq_some'.1 ha with ⟨ja, hja, rfl⟩
          rcases Option.map_eq_some'.1 hb with ⟨jb, hjb, rfl⟩
          exact ⟨le_refl 0, fun hpos => absurd hpos (lt_irrefl 0)⟩
    -- the prepayment row itself
    · have hep : idx = p := Nat.le_antisymm hip hge
      subst hep
      have hsp : setPrepay (fun _ => (0 : K)) idx amt idx = amt := by
        simp [setPrepay]
      simp only [amortAux, hsp] at hstill ⊢
      set pay := (if payRng.contains idx = true then payment else 0 : K) with hpay
      have hlt : s + (s - pay - amt) * ir - pay - amt
          < s + (s - pay - 0) * ir - pay - 0 := by
        nlinarith [mul_pos hamt hir]
      by_cases h0 : 0 < s + (s - pay - 0) * ir - pay - 0
      · simp only [if_pos h0] at hstill ⊢
        by_cases h1 : 0 < s + (s - pay - amt) * ir - pay - amt
        · simp only [if_pos h1]
          have hext := amortAux_ext ir app fees payment payRng payRng
            (setPrepay (fun _ => 0) idx amt) (fun _ => 0) fuel (idx + 1)
            (s + (s - pay - amt) * ir - pay - amt) (v * (1 + app))
            (fun k hk => ⟨rfl, by simp [setPrepay, Nat.ne_of_gt hk]⟩)
          rw [hext]
          obtain ⟨ihj, ihed⟩ := amortAux_mono ir app fees payment payRng (fun _ => 0)
            hir fuel (idx + 1) _ _ (v * (1 + app)) hlt
          refine ⟨?_, ihed⟩
          intro j a b _ ha hb
          cases j with
          | zero =>
            rw [List.get?_cons_zero, Option.some.injEq] at ha hb
            subst ha; subst hb
            exact ⟨le_of_lt hlt, fun _ => hlt⟩
          | succ j =>
            rw [List.get?_cons_succ] at ha hb
            exact ihj j a b ha hb
        · simp only [if_neg h1]
          refine ⟨?_, ?_⟩
          · intro j a b _ ha hb
            cases j with
            | zero =>
              rw [List.get?_cons_zero, Option.some.injEq] at ha hb
              subst ha; subst hb
              exact ⟨le_of_lt h0, fun _ => h0⟩
            | succ j =>
              rw [List.get?_cons_succ] at ha hb
              have hmem : a ∈ (amortAux ir app fees payment payRng (fun _ => 0) (idx + 1)
                  fuel (s + (s - pay - 0) * ir - pay - 0) (v * (1 + app))).1 :=
                List.get?_mem ha
              have ha0 := amortAux_endBal_nonneg ir app fees payment payRng (fun _ => 0)
                fuel (idx + 1) _ _ a hmem
              rw [List.get?_map] at hb
              rcases Option.map_eq_some'.1 hb with ⟨jj, hjj, rfl⟩
              exact ⟨ha0, fun hpos => hpos⟩
          · exact Nat.le_trans (by omega)
              (amortAux_endDate_ge ir app fees payment payRng (fun _ => 0) fuel (idx + 1) _ _)
      · exfalso
        rw [if_neg h0] at hstill
        have hz := hstill _ (by rw [Nat.sub_self]; rfl)
        exact absurd hz (lt_irrefl 0)

end PrepayEffect

/-! ### Scenario round-trip and cross-over marking -/

section ScenarioRvo

/-- A `filterMap` whose function returns `some` on every element of the
list is a `map`. -/
theorem filterMap_eq_map_of_some {α β : Type} (l : List α) (f : α → Option β) (g : α → β)
    (h : ∀ a ∈ l, f a = some (g a)) : l.filterMap f = l.map g := by
  induction l with
  | nil => rfl
  | cons a t ih =>
    rw [List.filterMap_cons, h a (List.mem_cons_self a t), List.map_cons,
      ih fun x hx => h x (List.mem_cons_of_mem a hx)]

/-- Looking up a row's own date in the series saved from its schedule
returns that row's end balance, provided dates are unique. -/
theorem lookupDate_save_scenario (rows : List (Row K)) (hnd : (rows.map Row.date).Nodup) :
    ∀ r ∈ rows, lookupDate (save_scenario rows) r.date = some r.endBal := by
  induction rows with
  | nil => intro r hr; simp at hr
  | cons a t ih =>
    intro r hr
    simp only [List.map_cons, List.nodup_cons] at hnd
    rcases List.mem_cons.1 hr with rfl | hmem
    · simp [lookupDate, save_scenario]
    · have hne : a.date ≠ r.date := fun he => hnd.1 (he ▸ List.mem_map_of_mem Row.date hmem)
      simp only [lookupDate, save_scenario, List.map_cons, List.find?_cons]
      have hd : decide (a.date = r.date) = false := by simp [hne]
      rw [hd]
      exact ih hnd.2 r hmem

/-- Joining a schedule against the series saved from itself keeps every
row, paired with its own end balance. -/
theorem joinScenario_self (rows : List (Row K)) (hnd : (rows.map Row.date).Nodup) :
    joinScenario rows (save_scenario rows) = rows.map (fun r => (r, r.endBal)) := by
  refine filterMap_eq_map_of_some rows _ _ fun r hr => ?_
  rw [lookupDate_save_scenario rows hnd r hr]
  rfl

/-- Cross-over marking in the investment loop: the first emitted row is
marked only when `idx ≠ 0` and the side differs from `prevR`; each
later row is marked exactly when its `invest_end > equity` side differs
from its predecessor's. -/
theorem rvoAux_cross (inv tax main rent payment deposit : K) :
    ∀ (rows : List (Row K)) (idx : Nat) (prevR : Bool) (carry : K),
    (∀ a ∈ (rvoAux inv tax main rent payment deposit idx prevR carry rows).head?,
       a.cross_over = (decide (idx ≠ 0) && (prevR != decide (a.row.equity < a.invest_end)))) ∧
    (∀ i a b, (rvoAux inv tax main rent payment deposit idx prevR carry rows).get? i = some a →
       (rvoAux inv tax main rent payment deposit idx prevR carry rows).get? (i + 1) = some b →
       b.cross_over
         = (decide (a.row.equity < a.invest_end) != decide (b.row.equity < b.invest_end))) := by
  intro rows
  induction rows with
  | nil => exact fun idx prevR carry => ⟨fun a ha => by simp [rvoAux] at ha, fun i a b ha _ => by simp [rvoAux] at ha⟩
  | cons r rest ih =>
    intro idx prevR carry
    constructor
    · intro a ha
      simp only [rvoAux, List.head?_cons, Option.mem_def, Option.some.injEq] at ha
      subst ha
      rfl
    · intro i a b ha hb
      simp only [rvoAux] at ha hb
      cases i with
      | zero =>
        rw [List.get?_cons_zero, Option.some.injEq] at ha
        subst ha
        rw [List.get?_cons_succ] at hb
        have hb' := List.get?_mem hb
        have hhead := (ih (idx + 1)
          (decide (r.equity < (if idx = 0 then
              (deposit, deposit * (1 + inv), deposit * (1 + inv))
            else if 0 < r.payment then
              (carry, (carry + tax + main + (payment - rent)) * (1 + inv),
                (carry + tax + main + (payment - rent)) * (1 + inv))
            else if r.payment = 0 then
              (carry, carry * (1 + inv), carry * (1 + inv))
            else (carry, 0, 0) : K × K × K).2.1))
          (if idx = 0 then
              (deposit, deposit * (1 + inv), deposit * (1 + inv))
            else if 0 < r.payment then
              (carry, (carry + tax + main + (payment - rent)) * (1 + inv),
                (carry + tax + main + (payment - rent)) * (1 + inv))
            else if r.payment = 0 then
              (carry, carry * (1 + inv), carry * (1 + inv))
            else (carry, 0, 0) : K × K × K).2.2).1 b ?_
        · rw [hhead]
          simp
        · rw [Option.mem_def]
          cases hrest : rest with
          | nil => rw [hrest] at hb; simp [rvoAux] at hb
          | cons r2 t2 =>
            rw [hrest] at hb
            simp only [rvoAux, List.get?_cons_zero, Option.some.injEq] at hb
            subst hb
            simp [rvoAux, List.head?_cons]
      | succ i =>
        rw [List.get?_cons_succ] at ha hb
        exact (ih _ _ _).2 i a b ha hb

end ScenarioRvo

/-! ### Unfolding equations for the engine entry points -/

section EntryEqs

/-- With no prepayments `get_amortization` always succeeds and runs the
loop on the zero prepayment column. -/
theorem get_amortization_none_eq (sd : CalDate) (price deposit payment : K) (yrs : Nat)
    (ir app : K) (frequency : Char) (re_fees : K) :
    get_amortization sd price deposit payment yrs ir app frequency re_fees none
      = some (amortAux ir app (re_fees / 100) payment (get_periods sd yrs frequency)
          (fun _ => 0) 0 (365 * yrs + 1) (price - deposit) price) := rfl

/-- With prepayments `get_amortization` first resolves them, then runs
the loop. -/
theorem get_amortization_some_eq (sd : CalDate) (price deposit payment : K) (yrs : Nat)
    (ir app : K) (frequency : Char) (re_fees : K) (ps : List (Nat × K)) :
    get_amortization sd price deposit payment yrs ir app frequency re_fees (some ps)
      = (resolvePrepayAux (365 * yrs) (fun _ => 0) ps).map (fun prepay =>
          amortAux ir app (re_fees / 100) payment (get_periods sd yrs frequency)
            prepay 0 (365 * yrs + 1) (price - deposit) price) := rfl

end EntryEqs

/-! ### Claim theorems -/

/-- C8: `get_georeturn` returns the per-period geometric rate
`(1 + rate/100)^(1/periodsPerYear) - 1` for each frequency it
recognises (`'m'` with 12 periods per year and `'d'` with 365), and
returns no value at all for every other frequency code. -/
theorem georeturn_spec (rate : ℝ) :
    get_georeturn rate 'm' = some ((1 + rate / 100) ^ ((1 : ℝ) / 12) - 1) ∧
    get_georeturn rate 'd' = some ((1 + rate / 100) ^ ((1 : ℝ) / 365) - 1) ∧
    ∀ frequency : Char, frequency ≠ 'm' → frequency ≠ 'd' →
      get_georeturn rate frequency = none := by
  refine ⟨rfl, rfl, ?_⟩
  intro f hm hd
  simp [get_georeturn, hm, hd]

/-- Witness for C8 at `rate = 5` and the unrecognised code `'b'`. -/
theorem georeturn_spec_witness :
    get_georeturn 5 'm' = some ((1 + 5 / 100) ^ ((1 : ℝ) / 12) - 1) ∧
    get_georeturn 5 'b' = none := by
  refine ⟨(georeturn_spec 5).1, (georeturn_spec 5).2.2 'b' (by decide) (by decide)⟩

/-- C10: for every frequency other than `'m'` and `'b'` — recognised or
not — the rent-vs-own comparator runs without failing and scales the
cash flows on the accelerated bi-weekly basis: annual tax by `1/26`,
monthly maintenance and rent by `12/26`. -/
theorem rent_vs_own_unknown_frequency (frequency : Char)
    (hm : frequency ≠ 'm') (hb : frequency ≠ 'b') (sd : CalDate)
    (price deposit payment : K) (yrs : Nat) (ir app re_fees monthly_rent inv
    monthly_main annual_tax : K) :
    rentScaling frequency annual_tax monthly_main monthly_rent
      = (annual_tax / 26, monthly_main * 12 / 26, monthly_rent * 12 / 26) ∧
    (get_rent_vs_own sd price deposit payment yrs ir app frequency re_fees monthly_rent
        inv monthly_main annual_tax).isSome = true := by
  constructor
  · simp [rentScaling, hm, hb]
  · rfl

/-- Witness for C10 at the unrecognised frequency `'x'`. -/
theorem rent_vs_own_unknown_frequency_witness :
    rentScaling 'x' (26 : ℚ) 26 26 = ((26 : ℚ) / 26, 26 * 12 / 26, 26 * 12 / 26) ∧
    (get_rent_vs_own cal0 (50 : ℚ) 0 60 0 0 0 'x' 0 26 0 26 26).isSome = true :=
  rent_vs_own_unknown_frequency 'x' (by decide) (by decide) cal0 50 0 60 0 0 0 0 26 0 26 26

/-- C3 counterexample: a prepayment dated on day 5 of a zero-year run
(whose only row is day 0) makes the engine fail (`none`), while the
same run without the prepayment succeeds — the prepayment is not
silently ignored. -/
theorem prepayment_unmatched_date_cex :
    get_amortization cal0 (50 : ℚ) 0 60 0 0 0 'd' 0 (some [(5, 10)]) = none ∧
    (get_amortization cal0 (50 : ℚ) 0 60 0 0 0 'd' 0 none).isSome = true := by
  exact ⟨rfl, rfl⟩

/-- C3 (amended): a prepayment whose date matches no generated row
(its day offset exceeds the horizon) makes the engine call fail with an
out-of-bounds index, returning no schedule; when every prepayment date
matches a generated row the call succeeds. -/
theorem prepayment_unmatched_date_fails (sd : CalDate) (price deposit payment : K)
    (yrs : Nat) (ir app : K) (frequency : Char) (re_fees : K) (ps : List (Nat × K)) :
    ((∃ q ∈ ps, 365 * yrs < q.1) →
      get_amortization sd price deposit payment yrs ir app frequency re_fees (some ps)
        = none) ∧
    ((∀ q ∈ ps, q.1 ≤ 365 * yrs) →
      (get_amortization sd price deposit payment yrs ir app frequency re_fees
        (some ps)).isSome = true) := by
  constructor
  · intro hex
    rw [get_amortization_some_eq, resolvePrepayAux_none (365 * yrs) ps _ hex]
    rfl
  · intro hall
    rw [get_amortization_some_eq]
    rcases Option.isSome_iff_exists.1 (resolvePrepayAux_some (365 * yrs) ps
      (fun _ => 0) hall) with ⟨pf, hpf⟩
    rw [hpf]
    rfl

/-- Witness for C3 (amended): day 5 exceeds the single-row horizon, so
the call fails; the aligned prepayment on day 0 succeeds. -/
theorem prepayment_unmatched_date_fails_witness :
    get_amortization cal0 (50 : ℚ) 0 60 0 0 0 'd' 0 (some [(5, 10)]) = none ∧
    (get_amortization cal0 (50 : ℚ) 0 60 0 0 0 'd' 0 (some [(0, 10)])).isSome = true :=
  ⟨(prepayment_unmatched_date_fails cal0 (50 : ℚ) 0 60 0 0 0 'd' 0 [(5, 10)]).1
      ⟨(5, 10), by decide, by decide⟩,
    (prepayment_unmatched_date_fails cal0 (50 : ℚ) 0 60 0 0 0 'd' 0 [(0, 10)]).2
      (by decide)⟩

/-- C4: the first row's start balance is `price - deposit` and every
later row's start balance is the previous row's end balance. -/
theorem startBalance_chain (sd : CalDate) (price deposit payment : K) (yrs : Nat)
    (ir app : K) (frequency : Char) (re_fees : K) (rows : List (Row K)) (ed : Nat)
    (h : get_amortization sd price deposit payment yrs ir app frequency re_fees none
      = some (rows, ed)) :
    rows.head?.map Row.start = some (price - deposit) ∧
    List.Chain' (fun a b => b.start = a.endBal) rows := by
  rw [get_amortization_none_eq, Option.some.injEq] at h
  have h1 := congrArg Prod.fst h
  dsimp only at h1
  subst h1
  exact ⟨amortAux_head_start ir app (re_fees / 100) payment
      (get_periods sd yrs frequency) (fun _ => 0) (365 * yrs) 0 (price - deposit) price,
    amortAux_chain ir app (re_fees / 100) payment (get_periods sd yrs frequency)
      (fun _ => 0) (365 * yrs + 1) 0 (price - deposit) price⟩

/-- Witness for C4 on a one-row run. -/
theorem startBalance_chain_witness :
    ([⟨0, 90, 0, 0, 0, 90, 100, 10⟩] : List (Row ℚ)).head?.map Row.start
      = some ((100 : ℚ) - 10) ∧
    List.Chain' (fun a b => b.start = a.endBal)
      ([⟨0, 90, 0, 0, 0, 90, 100, 10⟩] : List (Row ℚ)) :=
  startBalance_chain cal0 100 10 1 0 0 0 'a' 0 _ 0 (by decide!)

/-- C1 counterexample: with `price = 100`, `deposit = 0`,
`payment = 60`, daily payments and a 1-year horizon the mortgage pays
off on day 1 (`end_date = 1`, `endBal = 0` there), yet the returned
schedule still has 366 rows — row 2 exists — so the schedule does not
terminate at the payoff row. -/
theorem amort_rows_after_payoff_cex :
    (get_amortization cal0 (100 : ℚ) 0 60 1 0 0 'd' 0 none).map
      (fun pr => ((pr.1.get? 1).map Row.endBal, (pr.1.get? 2).isSome, pr.1.length, pr.2))
      = some (some 0, true, 366, 1) := by decide!

/-- C1 (amended): end balances are never negative; the rows split into
a strictly positive prefix and a zero-balance suffix, whose first row —
the terminal payoff row — has `payment = startBalance`, `interest = 0`,
`endBal = 0` and its date recorded as `end_date`, and whose remaining
rows are untouched zero rows that nevertheless stay in the returned
schedule; when no payoff occurs the `end_date` is the last simulated
day. -/
theorem amort_payoff_invariants (sd : CalDate) (price deposit payment : K) (yrs : Nat)
    (ir app : K) (frequency : Char) (re_fees : K) (rows : List (Row K)) (ed : Nat)
    (h : get_amortization sd price deposit payment yrs ir app frequency re_fees none
      = some (rows, ed)) :
    (∀ r ∈ rows, 0 ≤ r.endBal) ∧
    ∃ pre post, rows = pre ++ post ∧
      (∀ r ∈ pre, 0 < r.endBal) ∧
      (∀ r ∈ post, r.endBal = 0) ∧
      (∀ t ∈ post.head?, t.payment = t.start ∧ t.interest = 0 ∧ t.endBal = 0 ∧
        ed = t.date) ∧
      (∀ r ∈ post.tail, r.start = 0 ∧ r.payment = 0 ∧ r.interest = 0 ∧ r.endBal = 0 ∧
        r.value = 0 ∧ r.equity = 0) ∧
      (post = [] → ed = 365 * yrs) := by
  rw [get_amortization_none_eq, Option.some.injEq] at h
  obtain ⟨rfl, rfl⟩ : rows = (amortAux ir app (re_fees / 100) payment
      (get_periods sd yrs frequency) (fun _ => 0) 0 (365 * yrs + 1)
      (price - deposit) price).1 ∧ ed = (amortAux ir app (re_fees / 100) payment
      (get_periods sd yrs frequency) (fun _ => 0) 0 (365 * yrs + 1)
      (price - deposit) price).2 := ⟨by rw [h], by rw [h]⟩
  constructor
  · exact amortAux_endBal_nonneg ir app (re_fees / 100) payment
      (get_periods sd yrs frequency) (fun _ => 0) (365 * yrs + 1) 0 (price - deposit) price
  · obtain ⟨pre, post, hsplit, hpre, hemp, hhead, htail⟩ :=
      amortAux_decomp ir app (re_fees / 100) payment (get_periods sd yrs frequency)
        (fun _ => 0) (365 * yrs + 1) 0 (price - deposit) price
        ((amortAux ir app (re_fees / 100) payment (get_periods sd yrs frequency)
          (fun _ => 0) 0 (365 * yrs + 1) (price - deposit) price).1)
        ((amortAux ir app (re_fees / 100) payment (get_periods sd yrs frequency)
          (fun _ => 0) 0 (365 * yrs + 1) (price - deposit) price).2) rfl
    refine ⟨pre, post, hsplit, fun r hr => (hpre r hr).1, ?_, ?_, ?_, ?_⟩
    · intro r hr
      cases post with
      | nil => simp at hr
      | cons t ts =>
        rcases List.mem_cons.1 hr with rfl | hmem
        · exact (hhead r (by simp)).2.2.1
        · exact (htail r (by simpa using hmem)).2.2.2.1
    · intro t ht
      obtain ⟨hp, hi, hz, hed, _⟩ := hhead t ht
      exact ⟨hp, hi, hz, hed⟩
    · intro r hr
      obtain ⟨h1, h2, h3, h4, h5, h6⟩ := htail r hr
      exact ⟨h1, h2, h3, h4, h5, h6⟩
    · intro hp
      rw [hemp hp]
      omega

/-- Witness for C1 (amended): a run that pays off on its only day. -/
theorem amort_payoff_invariants_witness :
    (∀ r ∈ (((get_amortization cal0 (50 : ℚ) 0 60 0 0 0 'd' 0 none).getD ([], 0)).1),
        0 ≤ r.endBal) ∧
    ∃ pre post, (((get_amortization cal0 (50 : ℚ) 0 60 0 0 0 'd' 0 none).getD ([], 0)).1)
        = pre ++ post ∧
      (∀ r ∈ pre, 0 < r.endBal) ∧
      (∀ r ∈ post, r.endBal = 0) ∧
      (∀ t ∈ post.head?, t.payment = t.start ∧ t.interest = 0 ∧ t.endBal = 0 ∧
        ((get_amortization cal0 (50 : ℚ) 0 60 0 0 0 'd' 0 none).getD ([], 0)).2 = t.date) ∧
      (∀ r ∈ post.tail, r.start = 0 ∧ r.payment = 0 ∧ r.interest = 0 ∧ r.endBal = 0 ∧
        r.value = 0 ∧ r.equity = 0) ∧
      (post = [] →
        ((get_amortization cal0 (50 : ℚ) 0 60 0 0 0 'd' 0 none).getD ([], 0)).2 = 365 * 0) :=
  amort_payoff_invariants cal0 (50 : ℚ) 0 60 0 0 0 'd' 0 _
    (((get_amortization cal0 (50 : ℚ) 0 60 0 0 0 'd' 0 none).getD ([], 0)).2) (by decide!)

/-- C2 counterexample: on the terminal payoff row of the same one-day
run the stored values are `endBal = 0`, `value = 50`, `equity = 60`,
but the claimed formula with the stored balance gives
`(50 - 0) - 50 * (0/100) = 50 ≠ 60`: the code computed equity from the
unclamped balance `-10`. -/
theorem equity_terminal_row_cex :
    (get_amortization cal0 (50 : ℚ) 0 60 0 0 0 'd' 0 none).map
      (fun pr => (pr.1.get? 0).map (fun r =>
        (r.endBal, r.value, r.equity,
          decide (r.equity = (r.value - r.endBal) - r.value * (0 / 100)))))
      = some (some (0, 50, 60, false)) := by decide!

/-- C2 (amended): every row except the terminal payoff row satisfies
`equity = (value - endBal) - value * (re_fees/100)` with the stored end
balance; on the terminal payoff row the same formula holds with the
unclamped computed balance `e ≤ 0` in place of the stored `0`. -/
theorem equity_formula_rows (sd : CalDate) (price deposit payment : K) (yrs : Nat)
    (ir app : K) (frequency : Char) (re_fees : K) (rows : List (Row K)) (ed : Nat)
    (h : get_amortization sd price deposit payment yrs ir app frequency re_fees none
      = some (rows, ed)) :
    ∃ pre post, rows = pre ++ post ∧
      (∀ r ∈ pre, r.equity = (r.value - r.endBal) - r.value * (re_fees / 100)) ∧
      (∀ t ∈ post.head?, t.endBal = 0 ∧
        ∃ e, e ≤ 0 ∧ t.equity = (t.value - e) - t.value * (re_fees / 100)) ∧
      (∀ r ∈ post.tail, r.equity = (r.value - r.endBal) - r.value * (re_fees / 100)) := by
  rw [get_amortization_none_eq, Option.some.injEq] at h
  obtain ⟨rfl, rfl⟩ : rows = (amortAux ir app (re_fees / 100) payment
      (get_periods sd yrs frequency) (fun _ => 0) 0 (365 * yrs + 1)
      (price - deposit) price).1 ∧ ed = (amortAux ir app (re_fees / 100) payment
      (get_periods sd yrs frequency) (fun _ => 0) 0 (365 * yrs + 1)
      (price - deposit) price).2 := ⟨by rw [h], by rw [h]⟩
  obtain ⟨pre, post, hsplit, hpre, hemp, hhead, htail⟩ :=
    amortAux_decomp ir app (re_fees / 100) payment (get_periods sd yrs frequency)
      (fun _ => 0) (365 * yrs + 1) 0 (price - deposit) price
      ((amortAux ir app (re_fees / 100) payment (get_periods sd yrs frequency)
        (fun _ => 0) 0 (365 * yrs + 1) (price - deposit) price).1)
      ((amortAux ir app (re_fees / 100) payment (get_periods sd yrs frequency)
        (fun _ => 0) 0 (365 * yrs + 1) (price - deposit) price).2) rfl
  refine ⟨pre, post, hsplit, fun r hr => (hpre r hr).2, ?_, ?_⟩
  · intro t ht
    obtain ⟨_, _, hz, _, e, he, heq⟩ := hhead t ht
    exact ⟨hz, e, he, heq⟩
  · intro r hr
    obtain ⟨_, _, _, hz, hv, he⟩ := htail r hr
    rw [he, hv, hz]
    ring

/-- Witness for C2 (amended) on the one-day payoff run. -/
theorem equity_formula_rows_witness :
    ∃ pre post, (((get_amortization cal0 (50 : ℚ) 0 60 0 0 0 'd' 0 none).getD ([], 0)).1)
        = pre ++ post ∧
      (∀ r ∈ pre, r.equity = (r.value - r.endBal) - r.value * ((0 : ℚ) / 100)) ∧
      (∀ t ∈ post.head?, t.endBal = 0 ∧
        ∃ e, e ≤ 0 ∧ t.equity = (t.value - e) - t.value * ((0 : ℚ) / 100)) ∧
      (∀ r ∈ post.tail, r.equity = (r.value - r.endBal) - r.value * ((0 : ℚ) / 100)) :=
  equity_formula_rows cal0 (50 : ℚ) 0 60 0 0 0 'd' 0 _
    (((get_amortization cal0 (50 : ℚ) 0 60 0 0 0 'd' 0 none).getD ([], 0)).2) (by decide!)

/-- C5: saving a schedule with `save_scenario` and re-running the
engine on identical inputs with the saved series supplied reproduces,
at every overlapping date, the original end balance as the scenario
column, and the join is never empty. -/
theorem scenario_roundtrip (sd : CalDate) (price deposit payment : K) (yrs : Nat)
    (ir app : K) (frequency : Char) (re_fees : K) (rows : List (Row K)) (ed : Nat)
    (h : get_amortization sd price deposit payment yrs ir app frequency re_fees none
      = some (rows, ed)) :
    get_amortization_with_scenarios sd price deposit payment yrs ir app frequency re_fees
        none (save_scenario rows) = some (joinScenario rows (save_scenario rows), ed) ∧
    joinScenario rows (save_scenario rows) ≠ [] ∧
    ∀ q ∈ joinScenario rows (save_scenario rows), q.2 = q.1.endBal := by
  have h' := h
  rw [get_amortization_none_eq, Option.some.injEq] at h'
  obtain ⟨rfl, rfl⟩ : rows = (amortAux ir app (re_fees / 100) payment
      (get_periods sd yrs frequency) (fun _ => 0) 0 (365 * yrs + 1)
      (price - deposit) price).1 ∧ ed = (amortAux ir app (re_fees / 100) payment
      (get_periods sd yrs frequency) (fun _ => 0) 0 (365 * yrs + 1)
      (price - deposit) price).2 := ⟨by rw [h'], by rw [h']⟩
  have hnd : (((amortAux ir app (re_fees / 100) payment
      (get_periods sd yrs frequency) (fun _ => 0) 0 (365 * yrs + 1)
      (price - deposit) price).1).map Row.date).Nodup := by
    rw [amortAux_dates]
    exact List.nodup_range' _ _
  have hjoin := joinScenario_self _ hnd
  refine ⟨?_, ?_, ?_⟩
  · rfl
  · rw [hjoin]
    intro hc
    have hlen := amortAux_length ir app (re_fees / 100) payment
      (get_periods sd yrs frequency) (fun _ => 0) (365 * yrs + 1) 0 (price - deposit) price
    rw [List.map_eq_nil] at hc
    rw [hc] at hlen
    simp at hlen
  · intro q hq
    rw [hjoin] at hq
    rcases List.mem_map.1 hq with ⟨r, hr, rfl⟩
    rfl

/-- Witness for C5 on a one-row run. -/
theorem scenario_roundtrip_witness :
    get_amortization_with_scenarios cal0 (100 : ℚ) 10 1 0 0 0 'a' 0 none
        (save_scenario (((get_amortization cal0 (100 : ℚ) 10 1 0 0 0 'a' 0 none).getD
          ([], 0)).1))
      = some (joinScenario (((get_amortization cal0 (100 : ℚ) 10 1 0 0 0 'a' 0
            none).getD ([], 0)).1)
          (save_scenario (((get_amortization cal0 (100 : ℚ) 10 1 0 0 0 'a' 0 none).getD
            ([], 0)).1)),
          ((get_amortization cal0 (100 : ℚ) 10 1 0 0 0 'a' 0 none).getD ([], 0)).2) ∧
    joinScenario (((get_amortization cal0 (100 : ℚ) 10 1 0 0 0 'a' 0 none).getD
        ([], 0)).1)
      (save_scenario (((get_amortization cal0 (100 : ℚ) 10 1 0 0 0 'a' 0 none).getD
        ([], 0)).1)) ≠ [] ∧
    ∀ q ∈ joinScenario (((get_amortization cal0 (100 : ℚ) 10 1 0 0 0 'a' 0 none).getD
        ([], 0)).1)
      (save_scenario (((get_amortization cal0 (100 : ℚ) 10 1 0 0 0 'a' 0 none).getD
        ([], 0)).1)), q.2 = q.1.endBal :=
  scenario_roundtrip cal0 (100 : ℚ) 10 1 0 0 0 'a' 0 _ _ (by decide!)

/-- Unfolding equation for `get_rent_vs_own`. -/
theorem get_rent_vs_own_eq (sd : CalDate) (price deposit payment : K) (yrs : Nat)
    (ir app : K) (frequency : Char)
    (re_fees monthly_rent inv monthly_main annual_tax : K) :
    get_rent_vs_own sd price deposit payment yrs ir app frequency re_fees monthly_rent
        inv monthly_main annual_tax
      = some (rvoAux inv (rentScaling frequency annual_tax monthly_main monthly_rent).1
          (rentScaling frequency annual_tax monthly_main monthly_rent).2.1
          (rentScaling frequency annual_tax monthly_main monthly_rent).2.2 payment
          deposit 0 true 0
          ((amortAux ir app (re_fees / 100) payment (get_periods sd yrs frequency)
            (fun _ => 0) 0 (365 * yrs + 1) (price - deposit) price).1.filter
            (fun r => decide (r.date ≤ (amortAux ir app (re_fees / 100) payment
              (get_periods sd yrs frequency) (fun _ => 0) 0 (365 * yrs + 1)
              (price - deposit) price).2)))) := rfl

/-- C6 counterexample: a run whose investment and equity trajectories
cross three times; `cross_over` is set on rows 14, 16 and 28 — more
than one row of the schedule. -/
theorem cross_over_multiple_cex :
    (get_rent_vs_own cal0 (100 : ℚ) 10 1 1 0 0 'a' 0 (310573497 / 49152) (1 / 2) 0
        0).map (fun rs => ((rs.filter (fun r => r.cross_over)).length,
          (rs.filter (fun r => r.cross_over)).map (fun r => r.row.date)))
      = some (3, [14, 16, 28]) := by decide!

/-- C6 (amended): `cross_over` is never set on the first row, and on
every later row it is set exactly when the `invest_end > equity`
comparison differs from the previous row's — one marked row per sign
change, but one for every sign change, so several rows may be marked
when the trajectories cross more than once. -/
theorem cross_over_transition_rows (sd : CalDate) (price deposit payment : K)
    (yrs : Nat) (ir app : K) (frequency : Char)
    (re_fees monthly_rent inv monthly_main annual_tax : K) (rs : List (RvoRow K))
    (h : get_rent_vs_own sd price deposit payment yrs ir app frequency re_fees
      monthly_rent inv monthly_main annual_tax = some rs) :
    (∀ a ∈ rs.head?, a.cross_over = false) ∧
    (∀ i a b, rs.get? i = some a → rs.get? (i + 1) = some b →
       b.cross_over = (decide (a.row.equity < a.invest_end)
         != decide (b.row.equity < b.invest_end))) := by
  rw [get_rent_vs_own_eq, Option.some.injEq] at h
  subst h
  constructor
  · intro a ha
    have hh := (rvoAux_cross inv
      (rentScaling frequency annual_tax monthly_main monthly_rent).1
      (rentScaling frequency annual_tax monthly_main monthly_rent).2.1
      (rentScaling frequency annual_tax monthly_main monthly_rent).2.2
      payment deposit _ 0 true 0).1 a ha
    simpa using hh
  · exact (rvoAux_cross inv
      (rentScaling frequency annual_tax monthly_main monthly_rent).1
      (rentScaling frequency annual_tax monthly_main monthly_rent).2.1
      (rentScaling frequency annual_tax monthly_main monthly_rent).2.2
      payment deposit _ 0 true 0).2

/-- Witness for C6 (amended) on a one-row rent-vs-own run. -/
theorem cross_over_transition_rows_witness :
    (∀ a ∈ ((get_rent_vs_own cal0 (50 : ℚ) 0 60 0 0 0 'd' 0 1 0 1 1).getD []).head?,
       a.cross_over = false) ∧
    (∀ i a b, ((get_rent_vs_own cal0 (50 : ℚ) 0 60 0 0 0 'd' 0 1 0 1 1).getD
        []).get? i = some a →
       ((get_rent_vs_own cal0 (50 : ℚ) 0 60 0 0 0 'd' 0 1 0 1 1).getD []).get? (i + 1)
          = some b →
       b.cross_over = (decide (a.row.equity < a.invest_end)
         != decide (b.row.equity < b.invest_end))) :=
  cross_over_transition_rows cal0 (50 : ℚ) 0 60 0 0 0 'd' 0 1 0 1 1 _ (by decide!)

/-- C7 counterexample: the prepayment `(day 0, 10)` matches a schedule
row and strictly reduces the balance there (`30 < 40`), but from the
payoff row on both runs store the same `endBal = 0`: at row 1 the
balance with the prepayment is not strictly smaller. -/
theorem prepayment_strict_decrease_cex :
    ((get_amortization cal0 (100 : ℚ) 0 60 1 0 0 'd' 0 none).map
      (fun pr => ((pr.1.get? 0).map Row.endBal, (pr.1.get? 1).map Row.endBal))
      = some (some 40, some 0)) ∧
    ((get_amortization cal0 (100 : ℚ) 0 60 1 0 0 'd' 0 (some [(0, 10)])).map
      (fun pr => ((pr.1.get? 0).map Row.endBal, (pr.1.get? 1).map Row.endBal))
      = some (some 30, some 0)) := by decide!

/-- C7 (amended): if a single prepayment of `amt > 0` falls on day `p`
and the no-prepayment run's balance is still positive at row `p`, then
from row `p` on the prepayment run's end balance is never larger, and
is strictly smaller wherever the no-prepayment balance is still
positive (after both payoffs both balances are `0`); the payoff date
with the prepayment is never later. -/
theorem prepayment_monotone (sd : CalDate) (price deposit payment : K) (yrs : Nat)
    (ir app : K) (frequency : Char) (re_fees : K) (p : Nat) (amt : K)
    (R0 : List (Row K)) (E0 : Nat) (R1 : List (Row K)) (E1 : Nat) (r0p : Row K)
    (hamt : 0 < amt) (hir : 0 < 1 + ir)
    (h0 : get_amortization sd price deposit payment yrs ir app frequency re_fees none
      = some (R0, E0))
    (h1 : get_amortization sd price deposit payment yrs ir app frequency re_fees
      (some [(p, amt)]) = some (R1, E1))
    (hrow : R0.get? p = some r0p) (hpos : 0 < r0p.endBal) :
    (∀ j a b, p ≤ j → R0.get? j = some a → R1.get? j = some b →
       b.endBal ≤ a.endBal ∧ (0 < a.endBal → b.endBal < a.endBal)) ∧ E1 ≤ E0 := by
  rw [get_amortization_none_eq, Option.some.injEq] at h0
  obtain ⟨rfl, rfl⟩ : R0 = (amortAux ir app (re_fees / 100) payment
      (get_periods sd yrs frequency) (fun _ => 0) 0 (365 * yrs + 1)
      (price - deposit) price).1 ∧ E0 = (amortAux ir app (re_fees / 100) payment
      (get_periods sd yrs frequency) (fun _ => 0) 0 (365 * yrs + 1)
      (price - deposit) price).2 := ⟨by rw [h0], by rw [h0]⟩
  rw [get_amortization_some_eq] at h1
  by_cases hp : p ≤ 365 * yrs
  · have hres : resolvePrepayAux (365 * yrs) (fun _ => (0 : K)) [(p, amt)]
        = some (setPrepay (fun _ => 0) p amt) := by
      simp [resolvePrepayAux, hp]
    rw [hres, Option.map_some', Option.some.injEq] at h1
    obtain ⟨rfl, rfl⟩ : R1 = (amortAux ir app (re_fees / 100) payment
        (get_periods sd yrs frequency) (setPrepay (fun _ => 0) p amt) 0 (365 * yrs + 1)
        (price - deposit) price).1 ∧ E1 = (amortAux ir app (re_fees / 100) payment
        (get_periods sd yrs frequency) (setPrepay (fun _ => 0) p amt) 0 (365 * yrs + 1)
        (price - deposit) price).2 := ⟨by rw [h1], by rw [h1]⟩
    have hstill : ∀ a : Row K, ((amortAux ir app (re_fees / 100) payment
        (get_periods sd yrs frequency) (fun _ => 0) 0 (365 * yrs + 1)
        (price - deposit) price).1.get? (p - 0)) = some a → 0 < a.endBal := by
      intro a ha
      rw [Nat.sub_zero, hrow, Option.some.injEq] at ha
      exact ha ▸ hpos
    have key := amortAux_prepay_lt ir app (re_fees / 100) payment
      (get_periods sd yrs frequency) p amt hamt hir (365 * yrs + 1) 0
      (price - deposit) price (Nat.zero_le p) hstill
    exact ⟨fun j a b hj ha hb => key.1 j a b (by omega) ha hb, key.2⟩
  · exfalso
    rw [resolvePrepayAux_none (365 * yrs) [(p, amt)] _
      ⟨(p, amt), List.mem_cons_self _ _, by omega⟩] at h1
    simp at h1

/-- Witness for C7 (amended): prepayment of 10 on day 0 of a one-row
run with balance 40 at that row. -/
theorem prepayment_monotone_witness :
    (∀ j a b, 0 ≤ j →
       (((get_amortization cal0 (100 : ℚ) 0 60 0 0 0 'd' 0 none).getD
          ([], 0)).1).get? j = some a →
       (((get_amortization cal0 (100 : ℚ) 0 60 0 0 0 'd' 0 (some [(0, 10)])).getD
          ([], 0)).1).get? j = some b →
       b.endBal ≤ a.endBal ∧ (0 < a.endBal → b.endBal < a.endBal)) ∧
    ((get_amortization cal0 (100 : ℚ) 0 60 0 0 0 'd' 0 (some [(0, 10)])).getD
      ([], 0)).2 ≤ ((get_amortization cal0 (100 : ℚ) 0 60 0 0 0 'd' 0 none).getD
      ([], 0)).2 :=
  prepayment_monotone cal0 (100 : ℚ) 0 60 0 0 0 'd' 0 0 10 _ _ _ _
    ⟨0, 100, 60, 0, 0, 40, 100, 60⟩ (by decide!) (by norm_num) (by decide!) (by decide!)
    (by decide!) (by decide!)

/-- C9: the engine converts both rates at the daily frequency whatever
payment frequency is requested (`get_amortization_full` equals the core
engine fed the two daily geometric rates); the frequency enters only
through the payment grid (two frequencies with the same grid membership
produce identical schedules); and on every row still carrying a
positive balance the interest accrues as
`(start - payment - prepayment) * ir` for the single per-day rate `ir`
while the property value compounds by `1 + app` on every calendar-day
row, starting from `price * (1 + app)`. -/
theorem daily_rate_frequency_independence :
    (∀ (sd : CalDate) (price deposit payment : ℝ) (yrs : Nat) (int_rate app_rate : ℝ)
        (frequency : Char) (re_fees : ℝ) (pp : Option (List (Nat × ℝ))),
        get_amortization_full sd price deposit payment yrs int_rate app_rate frequency
            re_fees pp
          = get_amortization sd price deposit payment yrs
              ((1 + int_rate / 100) ^ ((1 : ℝ) / 365) - 1)
              ((1 + app_rate / 100) ^ ((1 : ℝ) / 365) - 1) frequency re_fees pp) ∧
    (∀ (K' : Type) [LinearOrderedField K'], ∀ (sd : CalDate)
        (price deposit payment : K') (yrs : Nat) (ir app : K') (f g : Char)
        (re_fees : K') (pp : Option (List (Nat × K'))),
        (∀ k, (get_periods sd yrs f).contains k = (get_periods sd yrs g).contains k) →
        get_amortization sd price deposit payment yrs ir app f re_fees pp
          = get_amortization sd price deposit payment yrs ir app g re_fees pp) ∧
    (∀ (K' : Type) [LinearOrderedField K'], ∀ (sd : CalDate)
        (price deposit payment : K') (yrs : Nat) (ir app : K') (frequency : Char)
        (re_fees : K') (pp : Option (List (Nat × K'))) (rows : List (Row K')) (ed : Nat),
        get_amortization sd price deposit payment yrs ir app frequency re_fees pp
          = some (rows, ed) →
        (∀ r ∈ rows, 0 < r.endBal →
           r.interest = (r.start - r.payment - r.prepayment) * ir) ∧
        rows.head?.map Row.value = some (price * (1 + app)) ∧
        List.Chain' (fun a b => 0 < b.endBal → b.value = a.value * (1 + app)) rows) := by
  refine ⟨fun _ _ _ _ _ _ _ _ _ _ => rfl, ?_, ?_⟩
  · intro K' _ sd price deposit payment yrs ir app f g re_fees pp hcont
    have hext : ∀ prepay : Nat → K',
        amortAux ir app (re_fees / 100) payment (get_periods sd yrs f) prepay 0
            (365 * yrs + 1) (price - deposit) price
          = amortAux ir app (re_fees / 100) payment (get_periods sd yrs g) prepay 0
            (365 * yrs + 1) (price - deposit) price := fun prepay =>
      amortAux_ext ir app (re_fees / 100) payment (get_periods sd yrs f)
        (get_periods sd yrs g) prepay prepay (365 * yrs + 1) 0 (price - deposit) price
        (fun k _ => ⟨hcont k, rfl⟩)
    cases pp with
    | none => rw [get_amortization_none_eq, get_amortization_none_eq, hext]
    | some ps =>
      rw [get_amortization_some_eq, get_amortization_some_eq]
      cases hres : resolvePrepayAux (365 * yrs) (fun _ => (0 : K')) ps with
      | none => rfl
      | some pf => rw [Option.map_some', Option.map_some', hext pf]
  · intro K' _ sd price deposit payment yrs ir app frequency re_fees pp rows ed h
    have hcore : ∃ prepay : Nat → K',
        amortAux ir app (re_fees / 100) payment (get_periods sd yrs frequency) prepay 0
          (365 * yrs + 1) (price - deposit) price = (rows, ed) := by
      cases pp with
      | none =>
        rw [get_amortization_none_eq, Option.some.injEq] at h
        exact ⟨fun _ => 0, h⟩
      | some ps =>
        rw [get_amortization_some_eq] at h
        cases hres : resolvePrepayAux (365 * yrs) (fun _ => (0 : K')) ps with
        | none => rw [hres] at h; simp at h
        | some pf =>
          rw [hres, Option.map_some', Option.some.injEq] at h
          exact ⟨pf, h⟩
    obtain ⟨prepay, hpre⟩ := hcore
    obtain ⟨hrows, hed⟩ : rows = (amortAux ir app (re_fees / 100) payment
        (get_periods sd yrs frequency) prepay 0 (365 * yrs + 1)
        (price - deposit) price).1 ∧ ed = (amortAux ir app (re_fees / 100) payment
        (get_periods sd yrs frequency) prepay 0 (365 * yrs + 1)
        (price - deposit) price).2 := ⟨by rw [hpre], by rw [hpre]⟩
    subst hrows
    refine ⟨?_, ?_, ?_⟩
    · exact amortAux_interest ir app (re_fees / 100) payment
        (get_periods sd yrs frequency) prepay (365 * yrs + 1) 0 (price - deposit) price
    · exact amortAux_head_value ir app (re_fees / 100) payment
        (get_periods sd yrs frequency) prepay (365 * yrs) 0 (price - deposit) price
    · exact amortAux_value_chain ir app (re_fees / 100) payment
        (get_periods sd yrs frequency) prepay (365 * yrs + 1) 0 (price - deposit) price

/-- Witness for C9: the conversion equation at concrete real inputs,
the grid-extensionality instance at `f = g = 'a'`, and the accrual and
compounding facts on a concrete one-row rational run. -/
theorem daily_rate_frequency_independence_witness :
    (get_amortization_full cal0 (100 : ℝ) 10 1 0 0 0 'a' 0 none
      = get_amortization cal0 (100 : ℝ) 10 1 0 ((1 + 0 / 100) ^ ((1 : ℝ) / 365) - 1)
          ((1 + 0 / 100) ^ ((1 : ℝ) / 365) - 1) 'a' 0 none) ∧
    (get_amortization cal0 (100 : ℚ) 10 1 0 0 0 'a' 0 none
      = get_amortization cal0 (100 : ℚ) 10 1 0 0 0 'a' 0 none) ∧
    ((∀ r ∈ (((get_amortization cal0 (100 : ℚ) 10 1 0 0 0 'a' 0 none).getD ([], 0)).1),
        0 < r.endBal → r.interest = (r.start - r.payment - r.prepayment) * 0) ∧
      (((get_amortization cal0 (100 : ℚ) 10 1 0 0 0 'a' 0 none).getD
        ([], 0)).1).head?.map Row.value = some ((100 : ℚ) * (1 + 0)) ∧
      List.Chain' (fun a b => 0 < b.endBal → b.value = a.value * (1 + 0))
        (((get_amortization cal0 (100 : ℚ) 10 1 0 0 0 'a' 0 none).getD ([], 0)).1)) :=
  ⟨daily_rate_frequency_independence.1 cal0 100 10 1 0 0 0 'a' 0 none,
    daily_rate_frequency_independence.2.1 ℚ cal0 100 10 1 0 0 0 'a' 'a' 0 none
      (fun _ => rfl),
    daily_rate_frequency_independence.2.2 ℚ cal0 100 10 1 0 0 0 'a' 0 none _
      (((get_amortization cal0 (100 : ℚ) 10 1 0 0 0 'a' 0 none).getD ([], 0)).2)
      (by decide!)⟩
